import Mathlib

set_option linter.unusedVariables false

namespace Tensat

/-- Maximum number of tensor dimensions supported (input.rs, `const MAX_DIM: usize = 8`). -/
def MAX_DIM : Nat := 8

/-- Modelled from the spec: the operator variants of the term language.  The
`Mdl` enumeration lives in model.rs, which is absent from src/; the variant
list follows the spec's data-model section together with the exhaustive
matches over `Mdl` in input.rs (`convert_to_node`) and optimize.rs
(`get_self_cost`).  Children are e-class ids (`egg::Id`, modelled as `Nat`);
the arities are those of the arrays used at each construction site. -/
inductive Mdl where
  | Var (name : List Char)
  | Num (n : Int)
  | Vec (children : List Nat)
  | Input (name blockArg : Nat)
  | ConstantOp
  | ReshapeOp (operand shape : Nat)
  | ConcatenateOp (inputs axis : Nat)
  | DotGeneralOp (lhs rhs lhsBatch rhsBatch lhsContract rhsContract precision shape : Nat)
  | TransposeOp (operand permutation : Nat)
  | MulOp (lhs rhs : Nat)
  | AddOp (lhs rhs : Nat)
  | DivOp (lhs rhs : Nat)
  | SubtractOp (lhs rhs : Nat)
  | MinOp (lhs rhs : Nat)
  | MaxOp (lhs rhs : Nat)
  | NegOp (operand : Nat)
  | TanhOp (operand : Nat)
  | ExpOp (operand : Nat)
  | IotaOp (iotaDim shape : Nat)
  | CompareOp (lhs rhs direction compType : Nat)
  | BroadcastInDimOp (operand dims : Nat)
  | ConvertOp (operand outputType : Nat)
  | ReduceOp (operand dims : Nat)
  | SelectOp (pred onTrue onFalse : Nat)
  | PadOp (operand padValue low high interior : Nat)
  | SliceOp (operand starts limits strides : Nat)
  | DynamicUpdateSliceOp (operand update starts : Nat)
  | DynamicSliceOp (operand starts sliceSizes : Nat)
  | ScatterOp (operand indices updates dimNumbers : Nat)
  | GatherOp (ops : List Nat)
  | BlackBox (ops : List Nat)
  | Index (ops : List Nat)
  | ReturnOp (ops : List Nat)
deriving DecidableEq

/-- The child e-class ids of an e-node (egg's `LanguageChildren::children`). -/
def Mdl.children : Mdl → List Nat
  | .Var _ => []
  | .Num _ => []
  | .Vec cs => cs
  | .Input a b => [a, b]
  | .ConstantOp => []
  | .ReshapeOp a b => [a, b]
  | .ConcatenateOp a b => [a, b]
  | .DotGeneralOp a b c d e f g h => [a, b, c, d, e, f, g, h]
  | .TransposeOp a b => [a, b]
  | .MulOp a b => [a, b]
  | .AddOp a b => [a, b]
  | .DivOp a b => [a, b]
  | .SubtractOp a b => [a, b]
  | .MinOp a b => [a, b]
  | .MaxOp a b => [a, b]
  | .NegOp a => [a]
  | .TanhOp a => [a]
  | .ExpOp a => [a]
  | .IotaOp a b => [a, b]
  | .CompareOp a b c d => [a, b, c, d]
  | .BroadcastInDimOp a b => [a, b]
  | .ConvertOp a b => [a, b]
  | .ReduceOp a b => [a, b]
  | .SelectOp a b c => [a, b, c]
  | .PadOp a b c d e => [a, b, c, d, e]
  | .SliceOp a b c d => [a, b, c, d]
  | .DynamicUpdateSliceOp a b c => [a, b, c]
  | .DynamicSliceOp a b c => [a, b, c]
  | .ScatterOp a b c d => [a, b, c, d]
  | .GatherOp ops => ops
  | .BlackBox ops => ops
  | .Index ops => ops
  | .ReturnOp ops => ops

/-- `TensorInfo` from input.rs: id into the RecExpr, shape (an `[i32; MAX_DIM]`
array, modelled as a list of length `MAX_DIM`), and the dimension count. -/
structure TensorInfo where
  id : Nat
  shape : List Int
  n_dim : Nat
deriving DecidableEq

/-- `CppGraphConverter` from input.rs (the `name_gen` field is never used by the
operations modelled here and is omitted).  `rec_expr` is egg's append-only
`RecExpr`; `scalar_map` and `tensorinfo_map` are hash maps modelled as
association lists where the most recent insertion is consulted first. -/
structure CppGraphConverter where
  rec_expr : List Mdl
  scalar_map : List (Int × Nat)
  tensorinfo_map : List (Nat × TensorInfo)
deriving DecidableEq

/-- The empty converter (`CppGraphConverter::default`). -/
def newConverter : CppGraphConverter := ⟨[], [], []⟩

/-- egg's `RecExpr::add`: push the node, return its index as the new id. -/
def addNode (g : CppGraphConverter) (n : Mdl) : Nat × CppGraphConverter :=
  (g.rec_expr.length, { g with rec_expr := g.rec_expr ++ [n] })

/-- Record a freshly built `TensorInfo` in `tensorinfo_map`. -/
def recordInfo (g : CppGraphConverter) (res : TensorInfo) : CppGraphConverter :=
  { g with tensorinfo_map := (res.id, res) :: g.tensorinfo_map }

/-- `add_or_get_val` from input.rs: memoised construction of `Num` scalar nodes. -/
def add_or_get_val (g : CppGraphConverter) (val : Int) : Nat × CppGraphConverter :=
  match g.scalar_map.lookup val with
  | some id => (id, g)
  | none =>
      let p := addNode g (.Num val)
      (p.1, { p.2 with scalar_map := (val, p.1) :: p.2.scalar_map })

/-- `vec_node` from input.rs: add one `Num` node per element, then a `Vec` node
over their ids. -/
def vec_node (g : CppGraphConverter) (seq : List Int) : Nat × CppGraphConverter :=
  let p := seq.foldl
    (fun (acc : List Nat × CppGraphConverter) n =>
      let q := addNode acc.2 (.Num n)
      (acc.1 ++ [q.1], q.2))
    ([], g)
  addNode p.2 (.Vec p.1)

/-- Panics that abort graph construction in input.rs, modelled as errors.
`shapeOverflow` is the index-out-of-bounds panic raised by storing a dimension
past the end of the `[i32; MAX_DIM]` array in `shape_from_dim` (the preceding
`println!` diagnostic is not fatal by itself, but the store that follows it
is); `indexOutOfBounds` covers the other slice-indexing panics. -/
inductive BuildErr where
  | shapeOverflow
  | indexOutOfBounds
deriving DecidableEq

/-- The write loop of `shape_from_dim`: `for (i, dim) in dims.iter().enumerate()
{ shape[i] = *dim; }`.  Writing at an index outside the array is a panic,
modelled by `none`. -/
def writeShape : List Int → Nat → List Int → Option (List Int)
  | [], _, shape => some shape
  | d :: ds, i, shape =>
      if i < shape.length then writeShape ds (i + 1) (shape.set i d) else none

/-- `shape_from_dim` from input.rs (lines 893-902): zero-pad `dims` into an
`[i32; MAX_DIM]` array and return it with the dimension count.  When
`dims.len() > MAX_DIM` the function prints a diagnostic and the write loop
then panics out of bounds, so no value is returned. -/
def shape_from_dim (dims : List Int) : Except BuildErr (List Int × Nat) :=
  match writeShape dims 0 (List.replicate MAX_DIM 0) with
  | some shape => .ok (shape, dims.length)
  | none => .error .shapeOverflow

/-- `reshape_op` from input.rs: shape is the literal shape attribute, run
through `shape_from_dim`. -/
def reshape_op (g : CppGraphConverter) (inpt : TensorInfo) (shape : List Int) :
    Except BuildErr (TensorInfo × CppGraphConverter) :=
  let p := vec_node g shape
  match shape_from_dim shape with
  | .error e => .error e
  | .ok sn =>
      let q := addNode p.2 (.ReshapeOp inpt.id p.1)
      let res : TensorInfo := ⟨q.1, sn.1, sn.2⟩
      .ok (res, recordInfo q.2 res)

/-- `concatenate_op` from input.rs (lines 537-557): builds the `ConcatenateOp`
node; the returned `TensorInfo` copies `inputs[0]`'s shape and dimension count
verbatim (the source carries a FIXME noting this is not real shape inference).
Reading `inputs[0]` of an empty slice is a panic. -/
def concatenate_op (g : CppGraphConverter) (inputs : List TensorInfo) (dimension : Int) :
    Except BuildErr (TensorInfo × CppGraphConverter) :=
  let p0 := add_or_get_val g dimension
  let p1 := addNode p0.2 (.Vec (inputs.map (·.id)))
  let p2 := add_or_get_val p1.2 dimension
  let p3 := addNode p2.2 (.ConcatenateOp p1.1 p2.1)
  match inputs.head? with
  | none => .error .indexOutOfBounds
  | some first =>
      let res : TensorInfo := ⟨p3.1, first.shape, first.n_dim⟩
      .ok (res, recordInfo p3.2 res)

/-- The shape loop of `pad_op`: `new_shape[i] = dim + low[i] + high[i] +
(dim.max(1) - 1) * interior[i]` for every entry `dim` of the stored shape
array; indexing a padding slice past its end is a panic. -/
def pad_shape : List Int → List Int → List Int → List Int → Option (List Int)
  | [], _, _, _ => some []
  | dim :: rest, low, high, interior => do
      let l ← low.head?
      let h ← high.head?
      let ip ← interior.head?
      let tail ← pad_shape rest low.tail high.tail interior.tail
      some ((dim + l + h + (max dim 1 - 1) * ip) :: tail)

/-- `pad_op` from input.rs (lines 626-662). -/
def pad_op (g : CppGraphConverter) (inpt : TensorInfo) (padding_value : Int)
    (edge_padding_low edge_padding_high interior_padding : List Int) :
    Except BuildErr (TensorInfo × CppGraphConverter) :=
  let p0 := vec_node g edge_padding_low
  let p1 := vec_node p0.2 edge_padding_high
  let p2 := vec_node p1.2 interior_padding
  let p3 := add_or_get_val p2.2 padding_value
  let p4 := addNode p3.2 (.PadOp inpt.id p3.1 p0.1 p1.1 p2.1)
  match pad_shape inpt.shape edge_padding_low edge_padding_high interior_padding with
  | none => .error .indexOutOfBounds
  | some new_shape =>
      let res : TensorInfo := ⟨p4.1, new_shape, inpt.n_dim⟩
      .ok (res, recordInfo p4.2 res)

/-- `constant_op` from input.rs (lines 814-823): a `ConstantOp` node whose
`TensorInfo` has shape `[1; MAX_DIM]` and dimension count 1. -/
def constant_op (g : CppGraphConverter) : TensorInfo × CppGraphConverter :=
  let p := addNode g .ConstantOp
  let res : TensorInfo := ⟨p.1, List.replicate MAX_DIM 1, 1⟩
  (res, recordInfo p.2 res)

/-- Character for a single decimal digit, as produced by Rust's integer
`Display` formatting. -/
def toDigitChar : Nat → Char
  | 0 => '0'
  | 1 => '1'
  | 2 => '2'
  | 3 => '3'
  | 4 => '4'
  | 5 => '5'
  | 6 => '6'
  | 7 => '7'
  | 8 => '8'
  | 9 => '9'
  | _ => '*'

/-- Fuel-driven decimal rendering loop for naturals (digits are produced from
the least significant end and consed onto `acc`). -/
def renderNatCore : Nat → Nat → List Char → List Char
  | 0, _, acc => acc
  | fuel + 1, n, acc =>
      if n < 10 then toDigitChar (n % 10) :: acc
      else renderNatCore fuel (n / 10) (toDigitChar (n % 10) :: acc)

/-- Decimal rendering of a natural number (Rust `Display` for unsigned). -/
def renderNat (n : Nat) : List Char := renderNatCore (n + 1) n []

/-- Decimal rendering of an `i32` value (Rust `Display` for signed). -/
def renderInt (v : Int) : List Char :=
  if v < 0 then '-' :: renderNat v.natAbs else renderNat v.toNat

/-- Value of a decimal digit character, `none` for non-digits. -/
def digitVal (c : Char) : Option Nat :=
  if '0' ≤ c ∧ c ≤ '9' then some (c.toNat - '0'.toNat) else none

/-- One step of decimal accumulation over an optional running value. -/
def pdStep (a : Option Nat) (c : Char) : Option Nat :=
  a.bind fun x => (digitVal c).map fun d => 10 * x + d

/-- Parse a non-empty all-digit character sequence as a natural number,
mirroring the digit phase of Rust's `str::parse`. -/
def parseDigits (cs : List Char) : Option Nat :=
  if cs.isEmpty then none else cs.foldl pdStep (some 0)

/-- Signed 32-bit range check performed by Rust's `i32::from_str`. -/
def i32InRange (v : Int) : Option Int :=
  if -(2 ^ 31) ≤ v ∧ v < 2 ^ 31 then some v else none

/-- `str::parse::<i32>` on a Rust string slice: optional sign, at least one
digit, all digits, result within the `i32` range. -/
def parse_i32 (cs : List Char) : Option Int :=
  match cs with
  | [] => none
  | c :: rest =>
      if c = '-' then (parseDigits rest).bind fun n => i32InRange (-(n : Int))
      else if c = '+' then (parseDigits rest).bind fun n => i32InRange (n : Int)
      else (parseDigits (c :: rest)).bind fun n => i32InRange (n : Int)

/-- Rust `str::split(sep)` over a character list: the separators delimit
(possibly empty) fragments, and splitting the empty string yields one empty
fragment. -/
def splitOnChar (sep : Char) : List Char → List (List Char)
  | [] => [[]]
  | c :: cs =>
      if c = sep then [] :: splitOnChar sep cs
      else
        match splitOnChar sep cs with
        | [] => [[c]]
        | p :: ps => (c :: p) :: ps

/-- itertools `join(sep)` over rendered fragments. -/
def joinWithChar (sep : Char) : List (List Char) → List Char
  | [] => []
  | [p] => p
  | p :: ps => p ++ sep :: joinWithChar sep ps

/-- The literal prefix of the symbolic name built by `input`:
`format!("input_{}", block_arg_number)` up to the argument number. -/
def inputPrefix : List Char := ['i', 'n', 'p', 'u', 't', '_']

/-- The symbolic name built by `input` in input.rs (line 275):
`format!("input_{}", block_arg_number) + "@" + &dims.iter().join("_")`. -/
def inputName (block_arg_number : Int) (dims : List Int) : List Char :=
  inputPrefix ++ renderInt block_arg_number ++ '@' :: joinWithChar '_' (dims.map renderInt)

/-- `input` from input.rs (lines 274-288): builds the `Var` name node carrying
the shape suffix, the block-argument `Num` node and the `Input` node, and
derives the stored shape via `shape_from_dim`. -/
def input (g : CppGraphConverter) (block_arg_number : Int) (dims : List Int) :
    Except BuildErr (TensorInfo × CppGraphConverter) :=
  let name := inputName block_arg_number dims
  let p0 := addNode g (.Var name)
  let p1 := add_or_get_val p0.2 block_arg_number
  match shape_from_dim dims with
  | .error e => .error e
  | .ok sn =>
      let p2 := addNode p1.2 (.Input p0.1 p1.1)
      let res : TensorInfo := ⟨p2.1, sn.1, sn.2⟩
      .ok (res, recordInfo p2.2 res)

/-- Element types crossing the FFI boundary (`ffi::Type` in input.rs). -/
inductive Ty where
  | i32
  | f32
deriving DecidableEq

/-- Modelled from the spec: the `ffi::Ops` operator-kind enumeration consumed
by the external cost oracle's `get_cost` entry point.  Its declaration is not
under src/ (the cxx bridge in input.rs shows an older per-op interface); the
constructor list is exactly the set of kinds passed to `get_cost` in
optimize.rs. -/
inductive Ops where
  | ReshapeOp
  | DotGeneralOp
  | ConcatenateOp
  | SliceOp
  | TransposeOp
  | MulOp
  | AddOp
  | DivOp
  | SubtractOp
  | MinOp
  | MaxOp
  | NegOp
  | TanhOp
  | ExpOp
deriving DecidableEq

/-- Modelled from the spec: the per-class analysis data (`TensorData` in
model.rs, absent from src/).  optimize.rs reads only its `shapes` field, a
vector of zero-padded `[i32; MAX_DIM]` shape arrays of which entry 0 is used. -/
structure TensorData where
  shapes : List (List Int)

/-- The external cost oracle (`CostModel::get_cost` on the C++ side): an
operator kind, child shapes, child element types, attribute vectors and
scalar attributes give an unsigned cost.  The oracle itself is out of scope;
it is a parameter of the embedding. -/
def Oracle : Type :=
  Ops → List (List Int) → List Ty → List (List Int) → List Int → Nat

/-- A Rust `iter().map(f).collect::<Result<..>>`-style loop: apply a fallible
step to every element in order, stopping at the first panic. -/
def mapME {α β ε : Type} (f : α → Except ε β) : List α → Except ε (List β)
  | [] => .ok []
  | a :: as => do
      let b ← f a
      let bs ← mapME f as
      .ok (b :: bs)

/-- A Rust `for`-loop threading fallible state updates, stopping at the first
panic. -/
def foldME {σ α ε : Type} (f : σ → α → Except ε σ) : σ → List α → Except ε σ
  | st, [] => .ok st
  | st, a :: as => do
      let st2 ← f st a
      foldME f st2 as

/-- Panics that abort the cost-model side (optimize.rs), modelled as errors. -/
inductive CostErr where
  | indexOutOfBounds
  | unimplemented
  | shapeOverflow
  | assertFailed
  | parseFailed
deriving DecidableEq

/-- `shapes[0]` indexing, which panics when the vector is empty. -/
def headE (l : List (List Int)) : Except CostErr (List Int) :=
  match l.head? with
  | some s => .ok s
  | none => .error .indexOutOfBounds

/-- `dim_to_i64_vec` from `get_self_cost`: drop the zero padding of a stored
shape array. -/
def dim_to_i64_vec (input : List Int) : List Int :=
  input.filter (· ≠ 0)

/-- `CostModel::tensor_data_to_shape_vec` from optimize.rs (lines 39-45):
non-zero entries of `shapes[0]`. -/
def tensor_data_to_shape_vec (td : TensorData) : Except CostErr (List Int) := do
  let s ← headE td.shapes
  .ok (s.filter (· ≠ 0))

/-- The local `shape_from_dim` inside `get_self_cost` (optimize.rs lines
73-82): unlike the input.rs variant it panics explicitly before the write loop
when the dimension count exceeds `MAX_DIM`. -/
def shape_from_dim_cm (dims : List Int) : Except CostErr (List Int × Nat) :=
  if MAX_DIM < dims.length then .error .shapeOverflow
  else
    match writeShape dims 0 (List.replicate MAX_DIM 0) with
    | some shape => .ok (shape, dims.length)
    | none => .error .indexOutOfBounds

/-- `x.parse::<i32>().unwrap()` — a parse failure is a panic. -/
def parse_i32E (cs : List Char) : Except CostErr Int :=
  match parse_i32 cs with
  | some v => .ok v
  | none => .error .parseFailed

/-- `dim_from_name_string` from `get_self_cost` (optimize.rs lines 97-105):
split the symbolic name on `@` (asserting exactly two parts), split the suffix
on `_`, parse each fragment as an `i32` and rebuild the shape array. -/
def dim_from_name_string (name : List Char) : Except CostErr (List Int × Nat) :=
  match splitOnChar '@' name with
  | [_, dimPart] => do
      let dims ← mapME parse_i32E (splitOnChar '_' dimPart)
      shape_from_dim_cm dims
  | _ => .error .assertFailed

/-- The e-graph context consulted by `get_self_cost`.  `data` is the per-class
analysis (`egraph[id].data`).  `vecOfNums`, `num` and `vecChildren` are
modelled from the spec: they stand for `get_vec_of_nums`, `get_num` and
`get_vec` from rewrites.rs (absent from src/), which read the constant
attribute (`Num`/`Vec`) nodes of a class. -/
structure CostEnv where
  data : Nat → TensorData
  vecOfNums : Nat → List Int
  num : Nat → Int
  vecChildren : Nat → List Nat

/-- `CostModel::get_self_cost` from optimize.rs (lines 62-324): the self cost
of a single e-node.  Nodes with no attached rewrites cost zero; shape-bearing
ops consult the external oracle; a few ops have hard-coded constant costs; any
variant not listed (reached only by `ConstantOp`) hits the `unimplemented!()`
catch-all, a panic. -/
def get_self_cost (oracle : Oracle) (env : CostEnv) (enode : Mdl) :
    Except CostErr Nat :=
  match enode with
  | .Num _ => .ok 0
  | .Var _ => .ok 0
  | .Input _ _ => .ok 0
  | .Vec _ => .ok 0
  | .BlackBox _ => .ok 0
  | .Index _ => .ok 0
  | .ReturnOp _ => .ok 0
  | .CompareOp _ _ _ _ => .ok 0
  | .BroadcastInDimOp _ _ => .ok 0
  | .ConvertOp _ _ => .ok 0
  | .ReduceOp _ _ => .ok 0
  | .ReshapeOp operand shape => do
      let ods ← headE (env.data operand).shapes
      .ok (oracle .ReshapeOp [dim_to_i64_vec ods] [.f32] [env.vecOfNums shape] [])
  | .GatherOp _ => .ok 0
  | .SelectOp _ _ _ => .ok 0
  | .DotGeneralOp lhs rhs lb rb lc rc pc sh => do
      let lhsDims ← tensor_data_to_shape_vec (env.data lhs)
      let rhsDims ← tensor_data_to_shape_vec (env.data rhs)
      .ok (oracle .DotGeneralOp [lhsDims, rhsDims] [.f32, .f32]
        [env.vecOfNums lb, env.vecOfNums rb, env.vecOfNums lc, env.vecOfNums rc,
          env.vecOfNums pc, env.vecOfNums sh] [])
  | .ConcatenateOp inputs axis => do
      let argDims ← mapME (fun id => do
        let s ← headE (env.data id).shapes
        pure (dim_to_i64_vec s)) (env.vecChildren inputs)
      .ok (oracle .ConcatenateOp argDims
        (List.replicate (env.vecChildren inputs).length .f32) [] [env.num axis])
  | .PadOp _ _ _ _ _ => .ok 100
  | .SliceOp operand starts limits strides => do
      let ods ← headE (env.data operand).shapes
      .ok (oracle .SliceOp [dim_to_i64_vec ods] [.f32]
        [env.vecOfNums starts, env.vecOfNums limits, env.vecOfNums strides] [])
  | .TransposeOp operand permutation => do
      let ods ← headE (env.data operand).shapes
      .ok (oracle .TransposeOp [dim_to_i64_vec ods] [.f32]
        [env.vecOfNums permutation] [])
  | .MulOp lhs rhs => do
      let lhsDims ← tensor_data_to_shape_vec (env.data lhs)
      let rhsDims ← tensor_data_to_shape_vec (env.data rhs)
      .ok (oracle .MulOp [lhsDims, rhsDims] [.f32, .f32] [] [])
  | .AddOp lhs rhs => do
      let lhsDims ← tensor_data_to_shape_vec (env.data lhs)
      let rhsDims ← tensor_data_to_shape_vec (env.data rhs)
      .ok (oracle .AddOp [lhsDims, rhsDims] [.f32, .f32] [] [])
  | .DivOp lhs rhs => do
      let lhsDims ← tensor_data_to_shape_vec (env.data lhs)
      let rhsDims ← tensor_data_to_shape_vec (env.data rhs)
      .ok (oracle .DivOp [lhsDims, rhsDims] [.f32, .f32] [] [])
  | .SubtractOp lhs rhs => do
      let lhsDims ← tensor_data_to_shape_vec (env.data lhs)
      let rhsDims ← tensor_data_to_shape_vec (env.data rhs)
      .ok (oracle .SubtractOp [lhsDims, rhsDims] [.f32, .f32] [] [])
  | .MinOp lhs rhs => do
      let lhsDims ← tensor_data_to_shape_vec (env.data lhs)
      let rhsDims ← tensor_data_to_shape_vec (env.data rhs)
      .ok (oracle .MinOp [lhsDims, rhsDims] [.f32, .f32] [] [])
  | .MaxOp lhs rhs => do
      let lhsDims ← tensor_data_to_shape_vec (env.data lhs)
      let rhsDims ← tensor_data_to_shape_vec (env.data rhs)
      .ok (oracle .MaxOp [lhsDims, rhsDims] [.f32, .f32] [] [])
  | .NegOp operand => do
      let operandDims ← tensor_data_to_shape_vec (env.data operand)
      .ok (oracle .NegOp [operandDims] [.f32] [] [])
  | .TanhOp operand => do
      let operandDims ← tensor_data_to_shape_vec (env.data operand)
      .ok (oracle .TanhOp [operandDims] [.f32] [] [])
  | .ExpOp operand => do
      let operandDims ← tensor_data_to_shape_vec (env.data operand)
      .ok (oracle .ExpOp [operandDims] [.f32] [] [])
  | .IotaOp _ _ => .ok 20
  | .DynamicUpdateSliceOp _ _ _ => .ok 3
  | .DynamicSliceOp _ _ _ => .ok 4
  | .ScatterOp _ _ _ _ => .ok 6
  | .ConstantOp => .error .unimplemented

/-- Modelled from the spec: an e-class snapshot as seen by `egraph.classes()`
(the e-graph structure itself belongs to the egg crate, outside src/): a class
id and the e-nodes stored in the class. -/
structure EClassM where
  id : Nat
  nodes : List Mdl

/-- Modelled from the spec: the parts of a live e-graph read by
`prep_ilp_data` — the class iterator, the union-find `find`, and the
analysis-level blacklist of e-nodes. -/
structure EGraphM where
  classes : List EClassM
  find : Nat → Nat
  blacklist_nodes : List Mdl

/-- Total number of e-nodes of the snapshot (`egraph.total_size()`). -/
def EGraphM.totalSize (g : EGraphM) : Nat :=
  (g.classes.map (·.nodes.length)).sum

/-- Lookup in `id_m_map`, the `HashMap<Id, usize>` collected from the
enumeration of `m_id_map`: with duplicate keys a `HashMap` keeps the entry
inserted last, so the fold keeps the latest index. -/
def id_m_get (m_id_map : List Nat) (k : Nat) : Option Nat :=
  m_id_map.enum.foldl (fun acc p => if p.2 = k then some p.1 else acc) none

/-- Panics that abort `prep_ilp_data`, modelled as errors: a failed
`id_m_map.get(..).unwrap()` and a panic inside the per-node cost call. -/
inductive PrepErr where
  | unwrapFailed
  | costPanic (e : CostErr)
deriving DecidableEq

/-- Lift an `id_m_map` lookup, whose failure is an `unwrap` panic. -/
def id_m_getE (m_id_map : List Nat) (k : Nat) : Except PrepErr Nat :=
  match id_m_get m_id_map k with
  | some m => .ok m
  | none => .error .unwrapFailed

/-- The accumulating state of the node loop in `prep_ilp_data`. -/
structure PrepState where
  i_to_nodes : List Mdl
  e_m : List (List Nat)
  h_i : List (List Nat)
  cost_i : List Nat
  g_i : List Nat
  blacklist_i : List Nat
  i : Nat

/-- The vectors returned by `prep_ilp_data`. -/
structure PrepData where
  m_id_map : List Nat
  e_m : List (List Nat)
  h_i : List (List Nat)
  cost_i : List Nat
  g_i : List Nat
  root_m : Nat
  i_to_nodes : List Mdl
  blacklist_i : List Nat

/-- The body of the inner loop of `prep_ilp_data` for one e-node of the class
with ILP class index `m`: push the node, record a blacklist hit, append the
node index to `e_m[m]`, push the children's class indices, the self cost and
the owning class index, and advance `i`. -/
def prepNode (oracle : Oracle) (env : CostEnv) (g : EGraphM) (m_id_map : List Nat)
    (m : Nat) (st : PrepState) (node : Mdl) : Except PrepErr PrepState := do
  let hs ← mapME (fun id => id_m_getE m_id_map (g.find id)) node.children
  let c ← (get_self_cost oracle env node).mapError PrepErr.costPanic
  .ok
    { i_to_nodes := st.i_to_nodes ++ [node]
      e_m := st.e_m.set m ((st.e_m.getD m []) ++ [st.i])
      h_i := st.h_i ++ [hs]
      cost_i := st.cost_i ++ [c]
      g_i := st.g_i ++ [m]
      blacklist_i :=
        st.blacklist_i ++ (if node ∈ g.blacklist_nodes then [st.i] else [])
      i := st.i + 1 }

/-- The body of the outer loop of `prep_ilp_data` for one e-class: resolve the
class's ILP index via `id_m_map` and process each stored node. -/
def prepClass (oracle : Oracle) (env : CostEnv) (g : EGraphM) (m_id_map : List Nat)
    (st : PrepState) (c : EClassM) : Except PrepErr PrepState := do
  let m ← id_m_getE m_id_map (g.find c.id)
  foldME (prepNode oracle env g m_id_map m) st c.nodes

/-- `prep_ilp_data` from optimize.rs (lines 339-403): serialize a live e-graph
and root class into the ILP vectors `m_id_map`, `e_m`, `h_i`, `cost_i`,
`g_i`, `root_m`, `i_to_nodes` and `blacklist_i`. -/
def prep_ilp_data (oracle : Oracle) (env : CostEnv) (g : EGraphM) (root : Nat) :
    Except PrepErr PrepData := do
  let m_id_map := g.classes.map fun c => g.find c.id
  let st0 : PrepState :=
    ⟨[], List.replicate g.classes.length [], [], [], [], [], 0⟩
  let st ← foldME (prepClass oracle env g m_id_map) st0 g.classes
  let root_m ← id_m_getE m_id_map (g.find root)
  .ok ⟨m_id_map, st.e_m, st.h_i, st.cost_i, st.g_i, root_m, st.i_to_nodes,
    st.blacklist_i⟩

/-- Panics inside the solution-reading loop of `extract_by_ilp`: out-of-range
indexing of `g_i`, `m_id_map` or `i_to_nodes`. -/
inductive ExtractErr where
  | indexOutOfBounds
deriving DecidableEq

/-- Slice indexing whose failure is a panic. -/
def getE {α : Type} (l : List α) (i : Nat) : Except ExtractErr α :=
  match l.get? i with
  | some v => .ok v
  | none => .error .indexOutOfBounds

/-- The solution-reading loop of `extract_by_ilp` (input.rs lines 1327-1340):
`for (i, x_i) in solved_x.iter().enumerate()`, and for each `x_i == 1` resolve
the owning e-class id; if the class already has a pick, log the conflict and
`continue`, otherwise insert the node into `node_picked`.  The map is modelled
as an association list queried front-to-back, so appending preserves the first
insertion for a key. -/
def node_picked_loop (g_i m_id_map : List Nat) (i_to_nodes : List Mdl) :
    List Int → Nat → List (Nat × Mdl) → Except ExtractErr (List (Nat × Mdl))
  | [], _, acc => .ok acc
  | x :: xs, i, acc =>
      if x = 1 then do
        let gi ← getE g_i i
        let eclass_id ← getE m_id_map gi
        let nd ← getE i_to_nodes i
        if (acc.lookup eclass_id).isSome then
          node_picked_loop g_i m_id_map i_to_nodes xs (i + 1) acc
        else
          node_picked_loop g_i m_id_map i_to_nodes xs (i + 1)
            (acc ++ [(eclass_id, nd)])
      else node_picked_loop g_i m_id_map i_to_nodes xs (i + 1) acc

/-- The `node_picked` map built by `extract_by_ilp` from the solver output. -/
def node_picked (solved_x : List Int) (g_i m_id_map : List Nat)
    (i_to_nodes : List Mdl) : Except ExtractErr (List (Nat × Mdl)) :=
  node_picked_loop g_i m_id_map i_to_nodes solved_x 0 []

/-- Index of the first solver pick that falls in e-class `c`, starting the
scan at global index `i`: the first position with `x_i = 1` whose node's
owning class resolves to `c`. -/
def pickIdxFrom (g_i m_id_map : List Nat) (c : Nat) :
    List Int → Nat → Option Nat
  | [], _ => none
  | x :: xs, i =>
      if x = 1 ∧ ((g_i.get? i).bind m_id_map.get?) = some c then some i
      else pickIdxFrom g_i m_id_map c xs (i + 1)

/-- Index of the first solver pick for e-class `c` over the whole output. -/
def firstPickIdx (solved_x : List Int) (g_i m_id_map : List Nat) (c : Nat) :
    Option Nat :=
  pickIdxFrom g_i m_id_map c solved_x 0

/-- The saturation limits configured in `optimize` (input.rs lines 1193-1199
and 1234-1239): `iter_limit`, `node_limit` and the wall-clock limit `n_sec`
handed to egg's `Runner`. -/
structure RunnerLimits where
  iter_limit : Nat
  node_limit : Nat
  time_limit_sec : Nat
deriving DecidableEq

/-- The limits hard-coded in `optimize`. -/
def optimizeLimits : RunnerLimits := ⟨10000, 5000000, 60⟩

/-- Modelled from the spec: the stop reasons reported by the saturation
driver (egg's `Runner`, outside src/). -/
inductive StopReason where
  | Saturated
  | IterationLimit
  | NodeLimit
  | TimeLimit
deriving DecidableEq

/-- Modelled from the spec: the observable outcome of one saturation
iteration — whether the search produced any new class merge, the total node
count afterwards, and the elapsed wall-clock time. -/
structure IterOutcome where
  merged : Bool
  nodes : Nat
  elapsedSec : Nat

/-- Modelled from the spec: the termination test of the saturation driver at
iteration `k` — whichever of the iteration cap, saturation, the node cap and
the time cap fires, or `none` when the driver keeps going. -/
def stopCond (cfg : RunnerLimits) (trace : Nat → IterOutcome) (k : Nat) :
    Option StopReason :=
  if cfg.iter_limit ≤ k then some .IterationLimit
  else if (trace k).merged = false then some .Saturated
  else if cfg.node_limit ≤ (trace k).nodes then some .NodeLimit
  else if cfg.time_limit_sec ≤ (trace k).elapsedSec then some .TimeLimit
  else none

/-- Modelled from the spec: the saturation loop, fuelled by the iteration cap
(the iteration-cap test makes the fuel sufficient). -/
def runnerGo (cfg : RunnerLimits) (trace : Nat → IterOutcome) :
    Nat → Nat → StopReason
  | 0, _ => .IterationLimit
  | fuel + 1, k =>
      match stopCond cfg trace k with
      | some r => r
      | none => runnerGo cfg trace fuel (k + 1)

/-- Modelled from the spec: run the saturation driver from iteration 0 and
report the stop reason. -/
def runnerRun (cfg : RunnerLimits) (trace : Nat → IterOutcome) : StopReason :=
  runnerGo cfg trace (cfg.iter_limit + 1) 0

/-- Terms over the rewrite surface, for stating the transpose-of-transpose
conditional rule: a `TransposeOp` with its permutation attribute, and opaque
other nodes. -/
inductive TTerm where
  | var (n : Nat)
  | transposeOp (x : TTerm) (perm : List Int)
  | node (op : Nat) (args : List TTerm)

/-- Modelled from the spec: the predicate `decreasing_perm("?p")` attached to
the `transpose-of-transpose` rule (its definition lives in rewrites.rs, absent
from src/); per the spec the rule applies only when the permutation bound to
`?p` is strictly decreasing. -/
def decreasing_perm : List Int → Bool
  | [] => true
  | [_] => true
  | a :: b :: rest => (b < a) && decreasing_perm (b :: rest)

/-- Modelled from the spec: the conditional applier of the rewrite
`(TransposeOp (TransposeOp ?x ?p) ?p) => ?x` registered in `optimize`
(input.rs lines 1212-1217).  Matching binds `?x` and `?p` (the two `?p`
positions must coincide); egg skips the applier when the attached predicate
returns false, in which case no union is performed (`none`). -/
def apply_transpose_of_transpose : TTerm → Option TTerm
  | .transposeOp (.transposeOp x p) q =>
      if p = q ∧ decreasing_perm p then some x else none
  | _ => none

/-- A constant external oracle, pricing every query at 7. -/
def oracle0 : Oracle := fun _ _ _ _ _ => 7

/-- A cost-model context in which every class stores the shape `[2, 3]`. -/
def env0 : CostEnv :=
  ⟨fun _ => ⟨[[2, 3, 0, 0, 0, 0, 0, 0]]⟩, fun _ => [], fun _ => 0, fun _ => []⟩

/-- A one-class e-graph holding only the node built by `constant_op`. -/
def constGraph : EGraphM := ⟨[⟨0, [.ConstantOp]⟩], fun n => n, []⟩

theorem writeShape_none (ds : List Int) :
    ∀ (i : Nat) (s : List Int), ds ≠ [] → s.length < i + ds.length →
      writeShape ds i s = none := by
  induction ds with
  | nil => intro i s h _; exact absurd rfl h
  | cons d ds ih =>
      intro i s _ hlen
      unfold writeShape
      by_cases hi : i < s.length
      · rw [if_pos hi]
        cases ds with
        | nil => simp at hlen; omega
        | cons e es =>
            apply ih _ _ (by simp)
            simp only [List.length_set]
            simp at hlen ⊢
            omega
      · rw [if_neg hi]

theorem set_append_len {α : Type} (pre : List α) (l : List α) (a : α) :
    (pre ++ l).set pre.length a = pre ++ l.set 0 a := by
  induction pre with
  | nil => simp
  | cons x xs ih => simp [List.set, ih]

theorem writeShape_pad (ds : List Int) :
    ∀ (pre : List Int) (m : Nat), ds.length ≤ m →
      writeShape ds pre.length (pre ++ List.replicate m 0) =
        some (pre ++ ds ++ List.replicate (m - ds.length) 0) := by
  induction ds with
  | nil => intro pre m _; simp [writeShape]
  | cons d ds ih =>
      intro pre m hlen
      cases m with
      | zero => simp at hlen
      | succ m =>
          unfold writeShape
          have hi : pre.length < (pre ++ List.replicate (m + 1) (0 : Int)).length := by
            simp
          rw [if_pos hi]
          have hset : (pre ++ List.replicate (m + 1) (0 : Int)).set pre.length d
              = (pre ++ [d]) ++ List.replicate m 0 := by
            rw [set_append_len, List.replicate_succ]
            simp
          rw [hset]
          have := ih (pre ++ [d]) m (by simp at hlen; omega)
          simp only [List.length_append, List.length_singleton] at this
          rw [this]
          simp [Nat.succ_sub_succ]

theorem shape_from_dim_pad (dims : List Int) (h : dims.length ≤ MAX_DIM) :
    shape_from_dim dims =
      .ok (dims ++ List.replicate (MAX_DIM - dims.length) 0, dims.length) := by
  have := writeShape_pad dims [] MAX_DIM h
  simp only [List.length_nil, List.nil_append] at this
  simp [shape_from_dim, this]

/-- C1: building any operator whose shape attribute has more than `MAX_DIM`
dimensions aborts instead of returning a `TensorInfo`: `shape_from_dim` never
produces a value for such a dimension list (the store past the end of the
`[i32; MAX_DIM]` array panics right after the overflow diagnostic is
printed), and in particular `reshape_op` — hence `new_reshape_op` — aborts
with the shape-overflow panic for a 9-element shape attribute. -/
theorem shape_overflow_aborts :
    (∀ dims : List Int, MAX_DIM < dims.length →
      shape_from_dim dims = .error .shapeOverflow) ∧
    (∀ (g : CppGraphConverter) (inpt : TensorInfo) (shape : List Int),
      MAX_DIM < shape.length →
      reshape_op g inpt shape = .error .shapeOverflow) := by
  have base : ∀ dims : List Int, MAX_DIM < dims.length →
      shape_from_dim dims = .error .shapeOverflow := by
    intro dims h
    have hne : dims ≠ [] := by
      intro hnil
      rw [hnil] at h
      simp [MAX_DIM] at h
    have := writeShape_none dims 0 (List.replicate MAX_DIM 0) hne (by simp; omega)
    simp [shape_from_dim, this]
  refine ⟨base, fun g inpt shape h => ?_⟩
  rw [reshape_op, base shape h]

/-- Witness for C1 at the spec's own scenario `Reshape(_, [1; 9])`. -/
theorem shape_overflow_aborts_witness :
    shape_from_dim [1, 1, 1, 1, 1, 1, 1, 1, 1] = .error .shapeOverflow ∧
    reshape_op newConverter ⟨0, List.replicate MAX_DIM 0, 0⟩
        [1, 1, 1, 1, 1, 1, 1, 1, 1] = .error .shapeOverflow :=
  ⟨shape_overflow_aborts.1 _ (by decide), shape_overflow_aborts.2 _ _ _ (by decide)⟩

/-- A first concatenation operand of shape `[2]`. -/
def concatIn0 : TensorInfo := ⟨0, [2, 0, 0, 0, 0, 0, 0, 0], 1⟩

/-- A second concatenation operand of shape `[3]`. -/
def concatIn1 : TensorInfo := ⟨1, [3, 0, 0, 0, 0, 0, 0, 0], 1⟩

/-- C2: evaluation of `concatenate_op` at the failing input — two operands of
sizes 2 and 3 concatenated along dimension 0.  The code copies the first
operand's shape `[2]` unchanged (its own FIXME admits the shapes are wrong),
whereas the claimed rule requires the sum `2 + 3 = 5` along the concatenation
dimension. -/
theorem concatenate_op_copies_first_shape :
    (concatenate_op newConverter [concatIn0, concatIn1] 0).map
        (fun p => p.1.shape) = .ok [2, 0, 0, 0, 0, 0, 0, 0] ∧
    (2 : Int) + 3 = 5 ∧
    ([2, 0, 0, 0, 0, 0, 0, 0] : List Int) ≠ [5, 0, 0, 0, 0, 0, 0, 0] :=
  ⟨rfl, rfl, by decide⟩

/-- C4: the conditional rewrite `(TransposeOp (TransposeOp ?x ?p) ?p) => ?x`
fires exactly on double transposes by one and the same permutation `?p`
satisfying `decreasing_perm`, and when the predicate is false the applier is
skipped, performing no union. -/
theorem transpose_of_transpose_conditional :
    (∀ t r : TTerm, apply_transpose_of_transpose t = some r ↔
      ∃ p, t = .transposeOp (.transposeOp r p) p ∧ decreasing_perm p = true) ∧
    (∀ (x : TTerm) (p : List Int), decreasing_perm p = false →
      apply_transpose_of_transpose (.transposeOp (.transposeOp x p) p) = none) := by
  constructor
  · intro t r
    constructor
    · intro h
      match t with
      | .var _ => simp [apply_transpose_of_transpose] at h
      | .node _ _ => simp [apply_transpose_of_transpose] at h
      | .transposeOp (.var _) _ => simp [apply_transpose_of_transpose] at h
      | .transposeOp (.node _ _) _ => simp [apply_transpose_of_transpose] at h
      | .transposeOp (.transposeOp x p) q =>
          rw [apply_transpose_of_transpose] at h
          split at h
          · rename_i hc
            cases h
            exact ⟨p, by rw [hc.1], hc.2⟩
          · cases h
    · rintro ⟨p, rfl, hp⟩
      simp [apply_transpose_of_transpose, hp]
  · intro x p hp
    simp [apply_transpose_of_transpose, hp]

/-- Witness for C4: the rule cancels the double transpose for the strictly
decreasing permutation `[1, 0]` and is skipped for `[0, 1]`. -/
theorem transpose_of_transpose_conditional_witness :
    apply_transpose_of_transpose
        (.transposeOp (.transposeOp (.var 0) [1, 0]) [1, 0]) = some (.var 0) ∧
    apply_transpose_of_transpose
        (.transposeOp (.transposeOp (.var 0) [0, 1]) [0, 1]) = none :=
  ⟨(transpose_of_transpose_conditional.1 _ _).mpr ⟨[1, 0], rfl, by decide⟩,
    transpose_of_transpose_conditional.2 _ _ (by decide)⟩

/-- C10: a graph reachable through the public constructors defeats the cost
model: `constant_op` (behind `new_constant_op`) stores a `ConstantOp` node,
`get_self_cost` hits its `unimplemented!()` catch-all on that node for every
oracle and context, and consequently `prep_ilp_data` — the entry into
extraction — aborts on a graph containing it. -/
theorem constant_op_defeats_cost_model :
    (∀ g : CppGraphConverter, Mdl.ConstantOp ∈ (constant_op g).2.rec_expr) ∧
    (∀ (oracle : Oracle) (env : CostEnv),
      get_self_cost oracle env .ConstantOp = .error .unimplemented) ∧
    prep_ilp_data oracle0 env0 constGraph 0 = .error (.costPanic .unimplemented) := by
  refine ⟨fun g => ?_, fun oracle env => rfl, rfl⟩
  simp [constant_op, addNode, recordInfo]

theorem pad_shape_spec :
    ∀ (shape low high interior out : List Int),
      pad_shape shape low high interior = some out →
      out.length = shape.length ∧
      ∀ i, i < shape.length →
        out.getD i 0 = shape.getD i 0 + low.getD i 0 + high.getD i 0 +
          (max (shape.getD i 0) 1 - 1) * interior.getD i 0 := by
  intro shape
  induction shape with
  | nil =>
      intro low high interior out h
      rw [pad_shape] at h
      cases h
      exact ⟨rfl, fun i hi => absurd hi (by simp)⟩
  | cons dim rest ih =>
      intro low high interior out h
      match low, high, interior with
      | [], _, _ => rw [pad_shape] at h; simp at h
      | _ :: _, [], _ => rw [pad_shape] at h; simp at h
      | _ :: _, _ :: _, [] => rw [pad_shape] at h; simp at h
      | l :: lt, hh :: ht, ip :: it =>
          rw [pad_shape] at h
          simp only [List.head?_cons, List.tail_cons, Option.bind_eq_bind,
            Option.some_bind] at h
          cases hrec : pad_shape rest lt ht it with
          | none => rw [hrec] at h; simp at h
          | some tail =>
              rw [hrec] at h
              simp only [Option.bind_eq_bind, Option.some_bind,
                Option.some.injEq] at h
              obtain ⟨hlen, hind⟩ := ih lt ht it tail hrec
              subst h
              refine ⟨by simp [hlen], fun i hi => ?_⟩
              cases i with
              | zero => simp
              | succ i =>
                  simp only [List.getD_cons_succ, List.length_cons] at hi ⊢
                  exact hind i (by omega)

theorem int_max_shift (d : Int) : max d 1 - 1 = max (d - 1) 0 := by
  rcases le_total d 1 with h | h
  · rw [max_eq_right h, max_eq_right (by omega : d - 1 ≤ 0)]; omega
  · rw [max_eq_left h, max_eq_left (by omega : (0 : Int) ≤ d - 1)]

/-- C3: every dimension of the shape returned by `pad_op` satisfies
`out[i] = in[i] + low[i] + high[i] + max(in[i] - 1, 0) * interior[i]`
(the code computes `in[i].max(1) - 1`, which agrees with `max(in[i] - 1, 0)`
over the integers). -/
theorem pad_op_shape_formula (g : CppGraphConverter) (inpt : TensorInfo)
    (pv : Int) (low high interior : List Int) (ti : TensorInfo)
    (g2 : CppGraphConverter)
    (h : pad_op g inpt pv low high interior = .ok (ti, g2)) :
    ti.shape.length = inpt.shape.length ∧
    ∀ i, i < inpt.shape.length →
      ti.shape.getD i 0 =
        inpt.shape.getD i 0 + low.getD i 0 + high.getD i 0 +
          max (inpt.shape.getD i 0 - 1) 0 * interior.getD i 0 := by
  rw [pad_op] at h
  cases hps : pad_shape inpt.shape low high interior with
  | none => rw [hps] at h; simp at h
  | some out =>
      rw [hps] at h
      simp only [Except.ok.injEq, Prod.mk.injEq] at h
      obtain ⟨h1, h2⟩ := h
      subst h1
      obtain ⟨hlen, hind⟩ := pad_shape_spec inpt.shape low high interior out hps
      refine ⟨hlen, fun i hi => ?_⟩
      have := hind i hi
      rw [int_max_shift] at this
      exact this

/-- A padding operand of shape `[2]`. -/
def padIn : TensorInfo := ⟨0, [2], 1⟩

/-- The `TensorInfo` produced by the witness padding. -/
def padOut : TensorInfo := ⟨7, [5], 1⟩

/-- The converter state after the witness padding. -/
def padConvOut : CppGraphConverter :=
  ⟨[.Num 1, .Vec [0], .Num 0, .Vec [2], .Num 2, .Vec [4], .Num 0,
    .PadOp 0 6 1 3 5], [(0, 6)], [(7, padOut)]⟩

/-- Witness for C3: padding `[2]` with low 1, high 0 and interior 2 yields
size `2 + 1 + 0 + (2 - 1) * 2 = 5`. -/
theorem pad_op_shape_formula_witness :
    pad_op newConverter padIn 0 [1] [0] [2] = .ok (padOut, padConvOut) ∧
    padOut.shape.getD 0 0 =
      padIn.shape.getD 0 0 + ([1] : List Int).getD 0 0 +
        ([0] : List Int).getD 0 0 +
        max (padIn.shape.getD 0 0 - 1) 0 * ([2] : List Int).getD 0 0 :=
  ⟨rfl,
    (pad_op_shape_formula newConverter padIn 0 [1] [0] [2] padOut padConvOut
        rfl).2 0 (by decide)⟩

/-- C5 (amended): `get_self_cost` returns cost zero for `Input`, `Num`, `Var`,
`Vec`, `BlackBox`, `Index` — and also for `CompareOp`, which never consults
the oracle — while each of the elementwise binary operators `Add`, `Subtract`,
`Mul`, `Div`, `Min`, `Max` consults the external oracle with the operands'
(zero-stripped) shapes and `f32` element types and returns the oracle's
unsigned cost as the node's self-cost. -/
theorem get_self_cost_zero_and_binary_oracle :
    (∀ (oracle : Oracle) (env : CostEnv) (n : Int),
      get_self_cost oracle env (.Num n) = .ok 0) ∧
    (∀ (oracle : Oracle) (env : CostEnv) (s : List Char),
      get_self_cost oracle env (.Var s) = .ok 0) ∧
    (∀ (oracle : Oracle) (env : CostEnv) (a b : Nat),
      get_self_cost oracle env (.Input a b) = .ok 0) ∧
    (∀ (oracle : Oracle) (env : CostEnv) (cs : List Nat),
      get_self_cost oracle env (.Vec cs) = .ok 0) ∧
    (∀ (oracle : Oracle) (env : CostEnv) (ops : List Nat),
      get_self_cost oracle env (.BlackBox ops) = .ok 0) ∧
    (∀ (oracle : Oracle) (env : CostEnv) (ops : List Nat),
      get_self_cost oracle env (.Index ops) = .ok 0) ∧
    (∀ (oracle : Oracle) (env : CostEnv) (a b c d : Nat),
      get_self_cost oracle env (.CompareOp a b c d) = .ok 0) ∧
    (∀ (oracle : Oracle) (env : CostEnv) (l r : Nat) (ls rs : List Int),
      tensor_data_to_shape_vec (env.data l) = .ok ls →
      tensor_data_to_shape_vec (env.data r) = .ok rs →
      get_self_cost oracle env (.AddOp l r) =
        .ok (oracle .AddOp [ls, rs] [.f32, .f32] [] []) ∧
      get_self_cost oracle env (.SubtractOp l r) =
        .ok (oracle .SubtractOp [ls, rs] [.f32, .f32] [] []) ∧
      get_self_cost oracle env (.MulOp l r) =
        .ok (oracle .MulOp [ls, rs] [.f32, .f32] [] []) ∧
      get_self_cost oracle env (.DivOp l r) =
        .ok (oracle .DivOp [ls, rs] [.f32, .f32] [] []) ∧
      get_self_cost oracle env (.MinOp l r) =
        .ok (oracle .MinOp [ls, rs] [.f32, .f32] [] []) ∧
      get_self_cost oracle env (.MaxOp l r) =
        .ok (oracle .MaxOp [ls, rs] [.f32, .f32] [] [])) := by
  refine ⟨fun _ _ _ => rfl, fun _ _ _ => rfl, fun _ _ _ _ => rfl,
    fun _ _ _ => rfl, fun _ _ _ => rfl, fun _ _ _ => rfl,
    fun _ _ _ _ _ _ => rfl, ?_⟩
  intro oracle env l r ls rs hl hr
  refine ⟨?_, ?_, ?_, ?_, ?_, ?_⟩ <;>
    · simp only [get_self_cost]
      rw [hl, hr]
      rfl

/-- C5 counterexample to the claim as stated: with a constant oracle pricing
every query at 7, a `CompareOp` node still costs 0, so `Compare` does not
return the oracle's cost. -/
theorem compare_op_cost_ignores_oracle :
    get_self_cost oracle0 env0 (.CompareOp 0 1 2 3) = .ok 0 ∧
    oracle0 .AddOp [[2, 3], [2, 3]] [.f32, .f32] [] [] = 7 ∧
    (0 : Nat) ≠ 7 :=
  ⟨rfl, rfl, by decide⟩

/-- Witness for C5 (amended): concrete zero cost for a `Num` node, and the
constant-7 oracle's price returned for an `AddOp` over shape-`[2, 3]`
operands. -/
theorem get_self_cost_zero_and_binary_oracle_witness :
    get_self_cost oracle0 env0 (.Num 5) = .ok 0 ∧
    get_self_cost oracle0 env0 (.AddOp 0 1) = .ok 7 :=
  ⟨get_self_cost_zero_and_binary_oracle.1 oracle0 env0 5,
    (get_self_cost_zero_and_binary_oracle.2.2.2.2.2.2.2
      oracle0 env0 0 1 [2, 3] [2, 3] rfl rfl).1⟩

theorem runnerGo_min (cfg : RunnerLimits) (trace : Nat → IterOutcome) :
    ∀ (fuel k : Nat), cfg.iter_limit < k + fuel →
      ∃ k2, k ≤ k2 ∧
        stopCond cfg trace k2 = some (runnerGo cfg trace fuel k) ∧
        ∀ j, k ≤ j → j < k2 → stopCond cfg trace j = none := by
  intro fuel
  induction fuel with
  | zero =>
      intro k hk
      refine ⟨k, le_refl k, ?_, fun j h1 h2 => absurd h1 (by omega)⟩
      simp only [runnerGo, stopCond]
      rw [if_pos (show cfg.iter_limit ≤ k by omega)]
  | succ fuel ih =>
      intro k hk
      cases hsc : stopCond cfg trace k with
      | some r =>
          have hrun : runnerGo cfg trace (fuel + 1) k = r := by
            simp only [runnerGo, hsc]
          exact ⟨k, le_refl k, by rw [hrun, hsc],
            fun j h1 h2 => absurd h1 (by omega)⟩
      | none =>
          have hrun : runnerGo cfg trace (fuel + 1) k =
              runnerGo cfg trace fuel (k + 1) := by
            simp only [runnerGo, hsc]
          obtain ⟨k2, hk2, hcond, hnone⟩ := ih (k + 1) (by omega)
          refine ⟨k2, by omega, by rw [hrun]; exact hcond, fun j h1 h2 => ?_⟩
          rcases Nat.eq_or_lt_of_le h1 with rfl | hlt
          · exact hsc
          · exact hnone j (by omega) h2

/-- C8: `optimize` configures the saturation driver with an iteration cap of
10000, a node cap of 5000000 and a 60-second wall-clock cap, and the driver
stops at the first iteration where any of the caps or saturation fires,
reporting that condition as the stop reason. -/
theorem optimize_limits_first_stop :
    optimizeLimits = ⟨10000, 5000000, 60⟩ ∧
    ∀ (trace : Nat → IterOutcome) (k : Nat) (r : StopReason),
      (∀ j, j < k → stopCond optimizeLimits trace j = none) →
      stopCond optimizeLimits trace k = some r →
      runnerRun optimizeLimits trace = r := by
  refine ⟨rfl, fun trace k r hnone hk => ?_⟩
  obtain ⟨k2, hk2, hcond, hnone2⟩ :=
    runnerGo_min optimizeLimits trace (optimizeLimits.iter_limit + 1) 0
      (by omega)
  have hkk : k2 = k := by
    rcases Nat.lt_trichotomy k2 k with h | h | h
    · rw [hnone k2 h] at hcond; exact Option.noConfusion hcond
    · exact h
    · have h0 := hnone2 k (by omega) h
      rw [hk] at h0
      exact Option.noConfusion h0
  subst hkk
  rw [hk] at hcond
  exact (Option.some.inj hcond).symm

/-- An iteration trace that keeps merging until iteration 3 and then
saturates, with small node counts and no elapsed time. -/
def trace0 : Nat → IterOutcome := fun k => ⟨decide (k < 3), 10, 0⟩

/-- Witness for C8: on `trace0` the driver reports saturation, the first
condition to fire. -/
theorem optimize_limits_first_stop_witness :
    runnerRun optimizeLimits trace0 = .Saturated := by
  refine optimize_limits_first_stop.2 trace0 3 .Saturated ?_ rfl
  intro j hj
  interval_cases j <;> rfl

theorem exceptOk_bind {ε α β : Type} (a : α) (f : α → Except ε β) :
    (Except.ok a >>= f) = f a := rfl

theorem exceptError_bind {ε α β : Type} (e : ε) (f : α → Except ε β) :
    ((Except.error e : Except ε α) >>= f) = .error e := rfl

/-- First-of-two option choice, mirroring a hash-map hit taking precedence
over a later computation. -/
def firstSome {α : Type} (a b : Option α) : Option α :=
  match a with
  | some v => some v
  | none => b

theorem firstSome_none_right {α : Type} (a : Option α) :
    firstSome a none = a := by
  cases a <;> rfl

theorem getE_ok {α : Type} (l : List α) (i : Nat) (v : α) :
    getE l i = .ok v ↔ l.get? i = some v := by
  unfold getE
  cases h : l.get? i <;> simp

theorem lookup_append (l1 l2 : List (Nat × Mdl)) (k : Nat) :
    (l1 ++ l2).lookup k = firstSome (l1.lookup k) (l2.lookup k) := by
  induction l1 with
  | nil => simp [firstSome]
  | cons p l1 ih =>
      obtain ⟨a, b⟩ := p
      by_cases h : k = a
      · subst h; simp [List.lookup, firstSome]
      · simp only [List.cons_append, List.lookup,
          beq_eq_false_iff_ne.mpr h]
        exact ih

theorem node_picked_loop_lookup (g_i m_id_map : List Nat)
    (i_to_nodes : List Mdl) :
    ∀ (xs : List Int) (i : Nat) (acc r : List (Nat × Mdl)),
      node_picked_loop g_i m_id_map i_to_nodes xs i acc = .ok r →
      ∀ c, r.lookup c = firstSome (acc.lookup c)
        ((pickIdxFrom g_i m_id_map c xs i).bind i_to_nodes.get?) := by
  intro xs
  induction xs with
  | nil =>
      intro i acc r h c
      rw [node_picked_loop] at h
      cases h
      simp [pickIdxFrom, firstSome_none_right]
  | cons x xs ih =>
      intro i acc r h c
      rw [node_picked_loop] at h
      by_cases hx : x = 1
      · rw [if_pos hx] at h
        cases hg : getE g_i i with
        | error e => rw [hg, exceptError_bind] at h; exact Except.noConfusion h
        | ok gi =>
        rw [hg, exceptOk_bind] at h
        cases hm : getE m_id_map gi with
        | error e => rw [hm, exceptError_bind] at h; exact Except.noConfusion h
        | ok ec =>
        rw [hm, exceptOk_bind] at h
        cases hn : getE i_to_nodes i with
        | error e => rw [hn, exceptError_bind] at h; exact Except.noConfusion h
        | ok nd =>
        rw [hn, exceptOk_bind] at h
        have hg' := (getE_ok _ _ _).mp hg
        have hm' := (getE_ok _ _ _).mp hm
        have hn' := (getE_ok _ _ _).mp hn
        have hbind : (g_i.get? i).bind m_id_map.get? = some ec := by
          rw [hg', Option.some_bind, hm']
        by_cases hdup : (acc.lookup ec).isSome
        · rw [if_pos hdup] at h
          have hrec := ih (i + 1) acc r h c
          by_cases hce : c = ec
          · subst hce
            obtain ⟨v, hv⟩ := Option.isSome_iff_exists.mp hdup
            rw [hrec, hv]
            rfl
          · rw [hrec, pickIdxFrom,
              if_neg (by
                rw [hbind]
                rintro ⟨_, hq⟩
                exact hce (Option.some.inj hq).symm)]
        · rw [if_neg hdup] at h
          have hrec := ih (i + 1) (acc ++ [(ec, nd)]) r h c
          rw [lookup_append] at hrec
          by_cases hce : c = ec
          · subst hce
            have hnone : acc.lookup c = none :=
              Option.not_isSome_iff_eq_none.mp hdup
            rw [hnone] at hrec ⊢
            rw [pickIdxFrom, if_pos ⟨hx, hbind⟩]
            simp only [List.lookup, beq_self_eq_true] at hrec
            rw [hrec]
            simp only [firstSome, Option.some_bind]
            exact hn'.symm
          · have hsingle : ([(ec, nd)] : List (Nat × Mdl)).lookup c = none := by
              simp [List.lookup, beq_eq_false_iff_ne.mpr hce]
            rw [hsingle, firstSome_none_right] at hrec
            rw [hrec, pickIdxFrom,
              if_neg (by
                rw [hbind]
                rintro ⟨_, hq⟩
                exact hce (Option.some.inj hq).symm)]
      · rw [if_neg hx] at h
        rw [ih (i + 1) acc r h c, pickIdxFrom, if_neg (by intro hc; exact hx hc.1)]

theorem node_picked_loop_ok (g_i m_id_map : List Nat) (i_to_nodes : List Mdl) :
    ∀ (xs : List Int) (i : Nat) (acc : List (Nat × Mdl)),
      i + xs.length ≤ g_i.length →
      (∀ v ∈ g_i, v < m_id_map.length) →
      i + xs.length ≤ i_to_nodes.length →
      (node_picked_loop g_i m_id_map i_to_nodes xs i acc).isOk = true := by
  intro xs
  induction xs with
  | nil => intro i acc _ _ _; rw [node_picked_loop]; rfl
  | cons x xs ih =>
      intro i acc hg hm hn
      rw [node_picked_loop]
      by_cases hx : x = 1
      · rw [if_pos hx]
        have hgi : i < g_i.length := by simp at hg; omega
        cases hgi' : g_i.get? i with
        | none => rw [List.get?_eq_none] at hgi'; omega
        | some gi =>
        have hgiE : getE g_i i = .ok gi := (getE_ok _ _ _).mpr hgi'
        have hmem : gi ∈ g_i := List.get?_mem hgi'
        have hlt : gi < m_id_map.length := hm gi hmem
        cases hec : m_id_map.get? gi with
        | none => rw [List.get?_eq_none] at hec; omega
        | some ec =>
        have hecE : getE m_id_map gi = .ok ec := (getE_ok _ _ _).mpr hec
        have hni : i < i_to_nodes.length := by simp at hn; omega
        cases hnd : i_to_nodes.get? i with
        | none => rw [List.get?_eq_none] at hnd; omega
        | some nd =>
        have hndE : getE i_to_nodes i = .ok nd := (getE_ok _ _ _).mpr hnd
        rw [hgiE, exceptOk_bind, hecE, exceptOk_bind, hndE, exceptOk_bind]
        by_cases hdup : (acc.lookup ec).isSome
        · rw [if_pos hdup]
          exact ih (i + 1) acc (by simp at hg ⊢; omega) hm
            (by simp at hn ⊢; omega)
        · rw [if_neg hdup]
          exact ih (i + 1) (acc ++ [(ec, nd)]) (by simp at hg ⊢; omega) hm
            (by simp at hn ⊢; omega)
      · rw [if_neg hx]
        exact ih (i + 1) acc (by simp at hg ⊢; omega) hm
          (by simp at hn ⊢; omega)

/-- C7: when the solver output marks several nodes of one e-class, the
`node_picked` map built by `extract_by_ilp` holds, for every class, the node
of the first marked index resolving to that class — later picks are ignored —
and the loop never fails on duplicates (it is fatal only on out-of-range
indices, which cannot occur for well-sized solver output). -/
theorem extract_keeps_first_pick :
    (∀ (solved_x : List Int) (g_i m_id_map : List Nat)
        (i_to_nodes : List Mdl) (acc : List (Nat × Mdl)),
      node_picked solved_x g_i m_id_map i_to_nodes = .ok acc →
      ∀ c, acc.lookup c =
        (firstPickIdx solved_x g_i m_id_map c).bind i_to_nodes.get?) ∧
    (∀ (solved_x : List Int) (g_i m_id_map : List Nat)
        (i_to_nodes : List Mdl),
      solved_x.length ≤ g_i.length →
      (∀ v ∈ g_i, v < m_id_map.length) →
      solved_x.length ≤ i_to_nodes.length →
      (node_picked solved_x g_i m_id_map i_to_nodes).isOk = true) := by
  constructor
  · intro solved_x g_i m_id_map i_to_nodes acc h c
    have := node_picked_loop_lookup g_i m_id_map i_to_nodes solved_x 0 [] acc
      h c
    rw [this]
    rfl
  · intro solved_x g_i m_id_map i_to_nodes hg hm hn
    exact node_picked_loop_ok g_i m_id_map i_to_nodes solved_x 0 []
      (by omega) hm (by omega)

/-- Witness for C7: both solver picks fall in the e-class with id 5; the
first pick (`Num 1`) is kept, the second ignored, and no error occurs. -/
theorem extract_keeps_first_pick_witness :
    node_picked [1, 1] [0, 0] [5] [.Num 1, .Num 2] = .ok [(5, .Num 1)] ∧
    ([(5, Mdl.Num 1)] : List (Nat × Mdl)).lookup 5 =
      (firstPickIdx [1, 1] [0, 0] [5] 5).bind
        (List.get? [Mdl.Num 1, Mdl.Num 2]) ∧
    (node_picked [1, 1] [0, 0] [5] [Mdl.Num 1, Mdl.Num 2]).isOk = true :=
  ⟨rfl,
    extract_keeps_first_pick.1 [1, 1] [0, 0] [5] [.Num 1, .Num 2]
      [(5, .Num 1)] rfl 5,
    extract_keeps_first_pick.2 [1, 1] [0, 0] [5] [.Num 1, .Num 2]
      (by decide) (by decide) (by decide)⟩

theorem mem_enumFrom_lt {α : Type} :
    ∀ (l : List α) (n : Nat) (p : Nat × α),
      p ∈ List.enumFrom n l → p.1 < n + l.length := by
  intro l
  induction l with
  | nil => intro n p hp; simp [List.enumFrom] at hp
  | cons a l ih =>
      intro n p hp
      rw [List.enumFrom] at hp
      rcases List.mem_cons.mp hp with rfl | hp
      · simp
      · have := ih (n + 1) p hp
        simp only [List.length_cons]
        omega

theorem id_m_get_lt (l : List Nat) (k m : Nat) (h : id_m_get l k = some m) :
    m < l.length := by
  rw [id_m_get] at h
  have hgen : ∀ (ps : List (Nat × Nat)) (acc : Option Nat),
      (∀ v, acc = some v → v < l.length) → (∀ p ∈ ps, p.1 < l.length) →
      ∀ v, ps.foldl (fun a q => if q.2 = k then some q.1 else a) acc = some v →
        v < l.length := by
    intro ps
    induction ps with
    | nil => intro acc hacc _ v hv; exact hacc v hv
    | cons q ps ih =>
        intro acc hacc hps v hv
        rw [List.foldl_cons] at hv
        refine ih _ ?_ (fun p hp => hps p (List.mem_cons_of_mem _ hp)) v hv
        intro w hw
        by_cases hq : q.2 = k
        · rw [if_pos hq] at hw
          cases hw
          exact hps q (List.mem_cons_self _ _)
        · rw [if_neg hq] at hw
          exact hacc w hw
  refine hgen l.enum none (fun v hv => Option.noConfusion hv) ?_ m h
  intro p hp
  have := mem_enumFrom_lt l 0 p hp
  omega

theorem id_m_getE_ok_lt (l : List Nat) (k m : Nat)
    (h : id_m_getE l k = .ok m) : m < l.length := by
  rw [id_m_getE] at h
  cases hid : id_m_get l k with
  | none => rw [hid] at h; exact Except.noConfusion h
  | some v => rw [hid] at h; cases h; exact id_m_get_lt l k m hid

theorem mapME_ok_mem {α β ε : Type} (f : α → Except ε β) :
    ∀ (l : List α) (r : List β), mapME f l = .ok r →
      ∀ b ∈ r, ∃ a ∈ l, f a = .ok b := by
  intro l
  induction l with
  | nil =>
      intro r h b hb
      rw [mapME] at h
      cases h
      simp at hb
  | cons a l ih =>
      intro r h b hb
      rw [mapME] at h
      cases hf : f a with
      | error e => rw [hf, exceptError_bind] at h; exact Except.noConfusion h
      | ok b0 =>
      rw [hf, exceptOk_bind] at h
      cases hrec : mapME f l with
      | error e => rw [hrec, exceptError_bind] at h; exact Except.noConfusion h
      | ok bs =>
      rw [hrec, exceptOk_bind] at h
      cases h
      rcases List.mem_cons.mp hb with rfl | hb2
      · exact ⟨a, List.mem_cons_self _ _, hf⟩
      · obtain ⟨a2, ha2, hfa2⟩ := ih bs hrec b hb2
        exact ⟨a2, List.mem_cons_of_mem _ ha2, hfa2⟩

theorem flatten_set_perm :
    ∀ (L : List (List Nat)) (m a : Nat), m < L.length →
      (L.set m ((L.getD m []) ++ [a])).flatten.Perm (L.flatten ++ [a]) := by
  intro L
  induction L with
  | nil => intro m a h; simp at h
  | cons l ls ih =>
      intro m a h
      cases m with
      | zero =>
          simp only [List.set, List.getD_cons_zero, List.flatten_cons]
          have h1 : (l ++ [a]) ++ ls.flatten = l ++ ([a] ++ ls.flatten) := by
            rw [List.append_assoc]
          have h2 : (l ++ ls.flatten) ++ [a] = l ++ (ls.flatten ++ [a]) := by
            rw [List.append_assoc]
          rw [h1, h2]
          exact List.Perm.append_left l List.perm_append_comm
      | succ m =>
          simp only [List.set, List.getD_cons_succ, List.flatten_cons]
          have h2 : (l ++ ls.flatten) ++ [a] = l ++ (ls.flatten ++ [a]) := by
            rw [List.append_assoc]
          rw [h2]
          exact List.Perm.append_left l (ih m a (by simp at h; omega))

/-- The loop invariant of `prep_ilp_data`: after `st.i` processed nodes, all
per-node vectors have one entry per node, `e_m` still has one (grown) bucket
per class, the buckets partition exactly the processed indices, every
processed index sits in the bucket of its recorded class, blacklist entries
are processed indices, and recorded child class indices are in range. -/
def PrepInv (numClasses : Nat) (st : PrepState) : Prop :=
  st.i_to_nodes.length = st.i ∧
  st.h_i.length = st.i ∧
  st.cost_i.length = st.i ∧
  st.g_i.length = st.i ∧
  st.e_m.length = numClasses ∧
  st.e_m.flatten.Perm (List.range st.i) ∧
  (∀ k, k < st.i → ∃ l, st.e_m.get? (st.g_i.getD k 0) = some l ∧ k ∈ l) ∧
  (∀ b ∈ st.blacklist_i, b < st.i) ∧
  (∀ l ∈ st.h_i, ∀ cidx ∈ l, cidx < numClasses)

theorem prepNode_inv (oracle : Oracle) (env : CostEnv) (g : EGraphM)
    (m_id_map : List Nat) (numClasses m : Nat) (st st' : PrepState)
    (node : Mdl) (hmm : m_id_map.length = numClasses) (hmlt : m < numClasses)
    (hinv : PrepInv numClasses st)
    (h : prepNode oracle env g m_id_map m st node = .ok st') :
    PrepInv numClasses st' ∧ st'.i = st.i + 1 := by
  obtain ⟨L1, L2, L3, L4, L5, L6, L7, L8, L9⟩ := hinv
  rw [prepNode] at h
  cases hhs : mapME (fun id => id_m_getE m_id_map (g.find id)) node.children with
  | error e => rw [hhs, exceptError_bind] at h; exact Except.noConfusion h
  | ok hs =>
  rw [hhs, exceptOk_bind] at h
  cases hc : (get_self_cost oracle env node).mapError PrepErr.costPanic with
  | error e => rw [hc, exceptError_bind] at h; exact Except.noConfusion h
  | ok cst =>
  rw [hc, exceptOk_bind] at h
  cases h
  have hmE : m < st.e_m.length := by rw [L5]; exact hmlt
  cases hold : st.e_m.get? m with
  | none => rw [List.get?_eq_none] at hold; omega
  | some oldl =>
  have hgetD : st.e_m.getD m [] = oldl := by
    rw [List.getD_eq_getD_get?, hold]; rfl
  have hsetget : (st.e_m.set m ((st.e_m.getD m []) ++ [st.i])).get? m =
      some (oldl ++ [st.i]) := by
    rw [List.get?_set_eq, hold, hgetD]; rfl
  refine ⟨⟨by simp [L1], by simp [L2], by simp [L3], by simp [L4],
    by simp [L5], ?_, ?_, ?_, ?_⟩, rfl⟩
  · exact (flatten_set_perm st.e_m m st.i hmE).trans
      ((List.Perm.append_right [st.i] L6).trans (List.range_succ st.i ▸
        List.Perm.refl _))
  · intro k hk
    dsimp only at hk ⊢
    rcases Nat.lt_or_ge k st.i with hk2 | hk2
    · obtain ⟨l, hl, hkl⟩ := L7 k hk2
      have hgd : (st.g_i ++ [m]).getD k 0 = st.g_i.getD k 0 :=
        List.getD_append _ _ _ _ (by omega)
      rw [hgd]
      by_cases hjm : st.g_i.getD k 0 = m
      · rw [hjm] at hl ⊢
        have hle : l = oldl := by rw [hl] at hold; exact Option.some.inj hold
        exact ⟨oldl ++ [st.i], hsetget,
          List.mem_append_left _ (hle ▸ hkl)⟩
      · exact ⟨l, by rw [List.get?_set_ne _ _ (fun he => hjm he.symm), hl],
          hkl⟩
    · have hk3 : k = st.i := by omega
      subst hk3
      have hgd : (st.g_i ++ [m]).getD st.i 0 = m := by
        rw [List.getD_eq_getD_get?, ← L4, List.get?_concat_length]; rfl
      rw [hgd]
      exact ⟨oldl ++ [st.i], hsetget, List.mem_append_right _ (by simp)⟩
  · intro b hb
    dsimp only at hb ⊢
    rcases List.mem_append.mp hb with hb1 | hb2
    · exact Nat.lt_succ_of_lt (L8 b hb1)
    · by_cases hbn : node ∈ g.blacklist_nodes
      · rw [if_pos hbn] at hb2; simp at hb2; omega
      · rw [if_neg hbn] at hb2; simp at hb2
  · intro l hl cidx hcx
    dsimp only at hl
    rcases List.mem_append.mp hl with hl1 | hl2
    · exact L9 l hl1 cidx hcx
    · simp at hl2
      rw [hl2] at hcx
      obtain ⟨a, _, hfa⟩ := mapME_ok_mem _ node.children hs hhs cidx hcx
      exact hmm ▸ id_m_getE_ok_lt _ _ _ hfa

theorem prepNodes_inv (oracle : Oracle) (env : CostEnv) (g : EGraphM)
    (m_id_map : List Nat) (numClasses m : Nat)
    (hmm : m_id_map.length = numClasses) (hmlt : m < numClasses) :
    ∀ (nodes : List Mdl) (st st' : PrepState), PrepInv numClasses st →
      foldME (prepNode oracle env g m_id_map m) st nodes = .ok st' →
      PrepInv numClasses st' ∧ st'.i = st.i + nodes.length := by
  intro nodes
  induction nodes with
  | nil =>
      intro st st' hinv h
      rw [foldME] at h
      cases h
      exact ⟨hinv, rfl⟩
  | cons node nodes ih =>
      intro st st' hinv h
      rw [foldME] at h
      cases hstep : prepNode oracle env g m_id_map m st node with
      | error e => rw [hstep, exceptError_bind] at h; exact Except.noConfusion h
      | ok st1 =>
      rw [hstep, exceptOk_bind] at h
      obtain ⟨hinv1, hi1⟩ := prepNode_inv oracle env g m_id_map numClasses m
        st st1 node hmm hmlt hinv hstep
      obtain ⟨hinv2, hi2⟩ := ih st1 st' hinv1 h
      refine ⟨hinv2, ?_⟩
      rw [hi2, hi1]
      simp
      omega

theorem prepClasses_inv (oracle : Oracle) (env : CostEnv) (g : EGraphM)
    (m_id_map : List Nat) (numClasses : Nat)
    (hmm : m_id_map.length = numClasses) :
    ∀ (classes : List EClassM) (st st' : PrepState), PrepInv numClasses st →
      foldME (prepClass oracle env g m_id_map) st classes = .ok st' →
      PrepInv numClasses st' ∧
        st'.i = st.i + (classes.map (·.nodes.length)).sum := by
  intro classes
  induction classes with
  | nil =>
      intro st st' hinv h
      rw [foldME] at h
      cases h
      exact ⟨hinv, by simp⟩
  | cons c classes ih =>
      intro st st' hinv h
      rw [foldME] at h
      cases hstep : prepClass oracle env g m_id_map st c with
      | error e => rw [hstep, exceptError_bind] at h; exact Except.noConfusion h
      | ok st1 =>
      rw [hstep, exceptOk_bind] at h
      rw [prepClass] at hstep
      cases hm : id_m_getE m_id_map (g.find c.id) with
      | error e =>
          rw [hm, exceptError_bind] at hstep; exact Except.noConfusion hstep
      | ok m =>
      rw [hm, exceptOk_bind] at hstep
      have hmlt : m < numClasses := hmm ▸ id_m_getE_ok_lt _ _ _ hm
      obtain ⟨hinv1, hi1⟩ := prepNodes_inv oracle env g m_id_map numClasses m
        hmm hmlt c.nodes st st1 hinv hstep
      obtain ⟨hinv2, hi2⟩ := ih st1 st' hinv1 h
      refine ⟨hinv2, ?_⟩
      rw [hi2, hi1]
      simp
      omega

theorem prepInv_init (n : Nat) :
    PrepInv n ⟨[], List.replicate n [], [], [], [], [], 0⟩ := by
  refine ⟨rfl, rfl, rfl, rfl, by simp, ?_, ?_, ?_, ?_⟩
  · have hfl : (List.replicate n ([] : List Nat)).flatten = [] := by
      induction n with
      | zero => rfl
      | succ n ih => simp [List.replicate_succ, ih]
    rw [hfl]
    simp
  · intro k hk; simp at hk
  · intro b hb; simp at hb
  · intro l hl; simp at hl

/-- C9: the vectors returned by `prep_ilp_data` are mutually consistent:
`i_to_nodes`, `h_i`, `cost_i` and `g_i` have exactly one entry per e-node of
the graph; the `e_m` buckets are pairwise disjoint and together enumerate
exactly the node indices below the total (their concatenation is a
permutation of `range total`); every node index lies in the bucket of its
own `g_i` class index; and `root_m`, the blacklist entries and the child
class indices recorded in `h_i` index into `m_id_map`, the node range and
`e_m` respectively. -/
theorem prep_ilp_data_consistent (oracle : Oracle) (env : CostEnv)
    (g : EGraphM) (root : Nat) (d : PrepData)
    (h : prep_ilp_data oracle env g root = .ok d) :
    d.m_id_map.length = g.classes.length ∧
    d.i_to_nodes.length = g.totalSize ∧
    d.h_i.length = g.totalSize ∧
    d.cost_i.length = g.totalSize ∧
    d.g_i.length = g.totalSize ∧
    d.e_m.length = d.m_id_map.length ∧
    d.e_m.Pairwise List.Disjoint ∧
    d.e_m.flatten.Perm (List.range g.totalSize) ∧
    (∀ i, i < g.totalSize →
      ∃ l, d.e_m.get? (d.g_i.getD i 0) = some l ∧ i ∈ l) ∧
    d.root_m < d.m_id_map.length ∧
    (∀ b ∈ d.blacklist_i, b < g.totalSize) ∧
    (∀ l ∈ d.h_i, ∀ cidx ∈ l, cidx < d.e_m.length) := by
  rw [prep_ilp_data] at h
  cases hst : foldME
      (prepClass oracle env g (g.classes.map fun c => g.find c.id))
      ⟨[], List.replicate g.classes.length [], [], [], [], [], 0⟩
      g.classes with
  | error e => rw [hst, exceptError_bind] at h; exact Except.noConfusion h
  | ok st =>
  rw [hst, exceptOk_bind] at h
  cases hroot : id_m_getE (g.classes.map fun c => g.find c.id)
      (g.find root) with
  | error e => rw [hroot, exceptError_bind] at h; exact Except.noConfusion h
  | ok rm =>
  rw [hroot, exceptOk_bind] at h
  cases h
  obtain ⟨hinv, hi⟩ := prepClasses_inv oracle env g
    (g.classes.map fun c => g.find c.id) g.classes.length (by simp)
    g.classes ⟨[], List.replicate g.classes.length [], [], [], [], [], 0⟩ st
    (prepInv_init g.classes.length) hst
  obtain ⟨I1, I2, I3, I4, I5, I6, I7, I8, I9⟩ := hinv
  have htot : st.i = g.totalSize := by
    rw [hi]
    simp [EGraphM.totalSize]
  rw [htot] at I1 I2 I3 I4 I6 I7 I8
  have hnd : st.e_m.flatten.Nodup :=
    (List.Perm.nodup_iff I6).mpr (List.nodup_range _)
  refine ⟨by simp, I1, I2, I3, I4, by simp [I5], ?_, I6, I7, ?_, I8, ?_⟩
  · exact (List.nodup_flatten.mp hnd).2
  · simpa using id_m_getE_ok_lt _ _ _ hroot
  · intro l hl cidx hcx
    have := I9 l hl cidx hcx
    rw [I5]
    exact this

/-- A two-class e-graph: class 0 holds `Num 0`, class 1 holds `AddOp 0 0`. -/
def prepG1 : EGraphM := ⟨[⟨0, [.Num 0]⟩, ⟨1, [.AddOp 0 0]⟩], fun n => n, []⟩

/-- The vectors `prep_ilp_data` produces for `prepG1`. -/
def prepD1 : PrepData :=
  ⟨[0, 1], [[0], [1]], [[], [0, 0]], [0, 7], [0, 1], 0,
    [.Num 0, .AddOp 0 0], []⟩

/-- Witness for C9 on the concrete two-class graph `prepG1`. -/
theorem prep_ilp_data_consistent_witness :
    prep_ilp_data oracle0 env0 prepG1 0 = .ok prepD1 ∧
    prepD1.e_m.flatten.Perm (List.range prepG1.totalSize) ∧
    prepD1.root_m < prepD1.m_id_map.length :=
  ⟨rfl,
    (prep_ilp_data_consistent oracle0 env0 prepG1 0 prepD1
      rfl).2.2.2.2.2.2.2.1,
    (prep_ilp_data_consistent oracle0 env0 prepG1 0 prepD1
      rfl).2.2.2.2.2.2.2.2.2.1⟩

/-- Reference decimal rendering (most significant digit first), used to reason
about the fuelled loop `renderNatCore`. -/
def rend (n : Nat) : List Char :=
  if _ : n < 10 then [toDigitChar (n % 10)]
  else rend (n / 10) ++ [toDigitChar (n % 10)]
termination_by n
decreasing_by exact Nat.div_lt_self (by omega) (by omega)

theorem renderNatCore_eq_rend :
    ∀ (fuel n : Nat) (acc : List Char), n < fuel →
      renderNatCore fuel n acc = rend n ++ acc := by
  intro fuel
  induction fuel with
  | zero => intro n acc h; omega
  | succ fuel ih =>
      intro n acc h
      rw [renderNatCore]
      by_cases h10 : n < 10
      · rw [if_pos h10, rend, dif_pos h10]
        simp
      · rw [if_neg h10]
        have hd : n / 10 < fuel := by
          have := Nat.div_lt_self (show 0 < n by omega) (show 1 < 10 by omega)
          omega
        have hr : rend n = rend (n / 10) ++ [toDigitChar (n % 10)] := by
          rw [rend]; rw [dif_neg h10]
        rw [ih (n / 10) (toDigitChar (n % 10) :: acc) hd, hr]
        simp

theorem renderNat_eq_rend (n : Nat) : renderNat n = rend n := by
  rw [renderNat, renderNatCore_eq_rend (n + 1) n [] (by omega)]
  simp

theorem rend_ne_nil (n : Nat) : rend n ≠ [] := by
  rw [rend]
  by_cases h10 : n < 10
  · rw [dif_pos h10]; simp
  · rw [dif_neg h10]; simp

theorem digitVal_toDigitChar (d : Nat) (h : d < 10) :
    digitVal (toDigitChar d) = some d := by
  interval_cases d <;> decide

theorem toDigitChar_ne (d : Nat) (h : d < 10) :
    toDigitChar d ≠ '_' ∧ toDigitChar d ≠ '@' ∧ toDigitChar d ≠ '-' ∧
      toDigitChar d ≠ '+' := by
  interval_cases d <;> refine ⟨?_, ?_, ?_, ?_⟩ <;> decide

theorem rend_digits :
    ∀ n : Nat, ∀ c ∈ rend n, ∃ d, d < 10 ∧ c = toDigitChar d := by
  intro n
  induction n using Nat.strong_induction_on with
  | _ n ih =>
      intro c hc
      rw [rend] at hc
      by_cases h10 : n < 10
      · rw [dif_pos h10] at hc
        simp at hc
        exact ⟨n % 10, by omega, hc⟩
      · rw [dif_neg h10] at hc
        rcases List.mem_append.mp hc with hc1 | hc2
        · exact ih (n / 10) (Nat.div_lt_self (by omega) (by omega)) c hc1
        · simp at hc2
          exact ⟨n % 10, by omega, hc2⟩

theorem rend_foldl :
    ∀ n a : Nat,
      (rend n).foldl pdStep (some a) =
        some (a * 10 ^ (rend n).length + n) := by
  intro n
  induction n using Nat.strong_induction_on with
  | _ n ih =>
      intro a
      by_cases h10 : n < 10
      · rw [rend, dif_pos h10]
        have hd := digitVal_toDigitChar (n % 10) (by omega)
        simp only [List.foldl_cons, List.foldl_nil, pdStep, hd,
          Option.some_bind, Option.map_some', List.length_singleton, pow_one,
          Option.some.injEq]
        omega
      · have hr : rend n = rend (n / 10) ++ [toDigitChar (n % 10)] := by
          rw [rend]; rw [dif_neg h10]
        rw [hr, List.foldl_append,
          ih (n / 10) (Nat.div_lt_self (by omega) (by omega)) a]
        have hd := digitVal_toDigitChar (n % 10) (by omega)
        simp only [List.foldl_cons, List.foldl_nil, pdStep, hd,
          Option.some_bind, Option.map_some', List.length_append,
          List.length_singleton, Option.some.injEq]
        have hmod : 10 * (n / 10) + n % 10 = n := Nat.div_add_mod n 10
        calc 10 * (a * 10 ^ (rend (n / 10)).length + n / 10) + n % 10
            = 10 * (a * 10 ^ (rend (n / 10)).length) +
              (10 * (n / 10) + n % 10) := by ring
          _ = a * 10 ^ ((rend (n / 10)).length + 1) + n := by
              rw [hmod, pow_succ]; ring

theorem parseDigits_renderNat (n : Nat) :
    parseDigits (renderNat n) = some n := by
  have hne : (rend n).isEmpty = false := by
    cases hr : rend n with
    | nil => exact absurd hr (rend_ne_nil n)
    | cons a l => rfl
  rw [renderNat_eq_rend, parseDigits, if_neg (by rw [hne]; simp),
    rend_foldl n 0]
  rw [Nat.zero_mul, Nat.zero_add]

theorem parse_i32_renderInt (v : Int) (h1 : -(2 ^ 31) ≤ v)
    (h2 : v < 2 ^ 31) : parse_i32 (renderInt v) = some v := by
  rw [renderInt]
  by_cases hv : v < 0
  · rw [if_pos hv]
    have hna : (-(v.natAbs : Int)) = v := by omega
    rw [parse_i32]
    rw [if_pos rfl, parseDigits_renderNat, Option.some_bind, i32InRange,
      hna, if_pos ⟨h1, h2⟩]
  · rw [if_neg hv]
    rw [renderNat_eq_rend]
    cases hrend : rend v.toNat with
    | nil => exact absurd hrend (rend_ne_nil _)
    | cons c rest =>
        obtain ⟨d, hd, rfl⟩ := rend_digits _ c
          (by rw [hrend]; exact List.mem_cons_self _ _)
        rw [parse_i32]
        rw [if_neg (toDigitChar_ne d hd).2.2.1,
          if_neg (toDigitChar_ne d hd).2.2.2]
        rw [← hrend, ← renderNat_eq_rend, parseDigits_renderNat]
        rw [Option.some_bind]
        have hti : ((v.toNat : Int)) = v := by omega
        rw [i32InRange, hti, if_pos ⟨h1, h2⟩]

theorem renderInt_chars (v : Int) (c : Char) (hc : c ∈ renderInt v) :
    c = '-' ∨ ∃ d, d < 10 ∧ c = toDigitChar d := by
  rw [renderInt] at hc
  by_cases hv : v < 0
  · rw [if_pos hv] at hc
    rcases List.mem_cons.mp hc with rfl | h2
    · exact Or.inl rfl
    · rw [renderNat_eq_rend] at h2
      exact Or.inr (rend_digits _ c h2)
  · rw [if_neg hv, renderNat_eq_rend] at hc
    exact Or.inr (rend_digits _ c hc)

theorem us_not_mem_renderInt (v : Int) : '_' ∉ renderInt v := by
  intro h
  rcases renderInt_chars v _ h with h1 | ⟨d, hd, h2⟩
  · exact absurd h1 (by decide)
  · exact (toDigitChar_ne d hd).1 h2.symm

theorem at_not_mem_renderInt (v : Int) : '@' ∉ renderInt v := by
  intro h
  rcases renderInt_chars v _ h with h1 | ⟨d, hd, h2⟩
  · exact absurd h1 (by decide)
  · exact (toDigitChar_ne d hd).2.1 h2.symm

theorem splitOnChar_no_sep (sep : Char) :
    ∀ p : List Char, sep ∉ p → splitOnChar sep p = [p] := by
  intro p
  induction p with
  | nil => intro _; rfl
  | cons c p ih =>
      intro h
      have hcs : ¬c = sep := by
        rintro rfl; exact h (List.mem_cons_self _ _)
      rw [splitOnChar, if_neg hcs,
        ih (fun hm => h (List.mem_cons_of_mem _ hm))]

theorem splitOnChar_append (sep : Char) :
    ∀ (p rest : List Char), sep ∉ p →
      splitOnChar sep (p ++ sep :: rest) = p :: splitOnChar sep rest := by
  intro p
  induction p with
  | nil => intro rest _; rw [List.nil_append, splitOnChar, if_pos rfl]
  | cons c p ih =>
      intro rest h
      have hcs : ¬c = sep := by
        rintro rfl; exact h (List.mem_cons_self _ _)
      rw [List.cons_append, splitOnChar, if_neg hcs,
        ih rest (fun hm => h (List.mem_cons_of_mem _ hm))]

theorem splitOnChar_join (sep : Char) :
    ∀ parts : List (List Char), parts ≠ [] → (∀ p ∈ parts, sep ∉ p) →
      splitOnChar sep (joinWithChar sep parts) = parts := by
  intro parts
  induction parts with
  | nil => intro h _; exact absurd rfl h
  | cons p ps ih =>
      intro _ hps
      cases ps with
      | nil =>
          rw [joinWithChar]
          exact splitOnChar_no_sep sep p (hps p (List.mem_cons_self _ _))
      | cons p2 ps2 =>
          have hj : joinWithChar sep (p :: p2 :: ps2) =
              p ++ sep :: joinWithChar sep (p2 :: ps2) := rfl
          rw [hj,
            splitOnChar_append sep p _ (hps p (List.mem_cons_self _ _)),
            ih (by simp) (fun q hq => hps q (List.mem_cons_of_mem _ hq))]

theorem mem_joinWithChar (sep : Char) :
    ∀ (parts : List (List Char)) (c : Char), c ∈ joinWithChar sep parts →
      c = sep ∨ ∃ p ∈ parts, c ∈ p := by
  intro parts
  induction parts with
  | nil => intro c hc; rw [joinWithChar] at hc; simp at hc
  | cons p ps ih =>
      intro c hc
      cases ps with
      | nil =>
          rw [joinWithChar] at hc
          exact Or.inr ⟨p, List.mem_cons_self _ _, hc⟩
      | cons p2 ps2 =>
          have hj : joinWithChar sep (p :: p2 :: ps2) =
              p ++ sep :: joinWithChar sep (p2 :: ps2) := rfl
          rw [hj] at hc
          rcases List.mem_append.mp hc with h1 | h2
          · exact Or.inr ⟨p, List.mem_cons_self _ _, h1⟩
          · rcases List.mem_cons.mp h2 with rfl | h3
            · exact Or.inl rfl
            · rcases ih c h3 with h | ⟨q, hq, hcq⟩
              · exact Or.inl h
              · exact Or.inr ⟨q, List.mem_cons_of_mem _ hq, hcq⟩

theorem mapME_parse_renderInt :
    ∀ dims : List Int, (∀ d ∈ dims, -(2 ^ 31) ≤ d ∧ d < 2 ^ 31) →
      mapME parse_i32E (dims.map renderInt) = .ok dims := by
  intro dims
  induction dims with
  | nil => intro _; rfl
  | cons d dims ih =>
      intro h
      have hp : parse_i32E (renderInt d) = .ok d := by
        rw [parse_i32E,
          parse_i32_renderInt d (h d (List.mem_cons_self _ _)).1
            (h d (List.mem_cons_self _ _)).2]
      rw [List.map_cons, mapME, hp, exceptOk_bind,
        ih (fun x hx => h x (List.mem_cons_of_mem _ hx)), exceptOk_bind]

theorem shape_from_dim_cm_pad (dims : List Int) (h : dims.length ≤ MAX_DIM) :
    shape_from_dim_cm dims =
      .ok (dims ++ List.replicate (MAX_DIM - dims.length) 0, dims.length) := by
  rw [shape_from_dim_cm, if_neg (by omega)]
  have hw := writeShape_pad dims [] MAX_DIM h
  simp only [List.length_nil, List.nil_append] at hw
  rw [hw]

theorem add_or_get_val_mono (g : CppGraphConverter) (v : Int) (x : Mdl)
    (h : x ∈ g.rec_expr) : x ∈ (add_or_get_val g v).2.rec_expr := by
  cases hl : g.scalar_map.lookup v with
  | some id => rw [add_or_get_val, hl]; exact h
  | none =>
      rw [add_or_get_val, hl]
      simp only [addNode]
      exact List.mem_append_left _ h

theorem at_not_mem_namePrefix (b : Int) :
    '@' ∉ inputPrefix ++ renderInt b := by
  intro h
  rcases List.mem_append.mp h with h1 | h2
  · exact absurd h1 (by decide)
  · exact at_not_mem_renderInt b h2

theorem at_not_mem_dimsPart (dims : List Int) :
    '@' ∉ joinWithChar '_' (dims.map renderInt) := by
  intro h
  rcases mem_joinWithChar '_' (dims.map renderInt) '@' h with h1 | ⟨p, hp, hcp⟩
  · exact absurd h1 (by decide)
  · obtain ⟨d, _, rfl⟩ := List.mem_map.mp hp
    exact at_not_mem_renderInt d hcp

theorem splitOnChar_inputName (b : Int) (dims : List Int) :
    splitOnChar '@' (inputName b dims) =
      [inputPrefix ++ renderInt b, joinWithChar '_' (dims.map renderInt)] := by
  rw [inputName,
    splitOnChar_append '@' (inputPrefix ++ renderInt b) _
      (at_not_mem_namePrefix b),
    splitOnChar_no_sep '@' _ (at_not_mem_dimsPart dims)]

/-- C6 (amended): for every non-empty dimension list that fits in `MAX_DIM`
dimensions (as required for `input` to return at all) whose entries are `i32`
values, the symbolic name `input_<n>@d0_d1_…` built by `input` is stored in a
`Var` node, and parsing that name back with the cost model's
`dim_from_name_string` recovers exactly the zero-padded shape and dimension
count stored in the returned `TensorInfo`.  (For the empty dimension list the
round trip fails: parsing panics on the empty suffix fragment.) -/
theorem input_name_round_trip (g : CppGraphConverter) (b : Int)
    (dims : List Int) (ti : TensorInfo) (g2 : CppGraphConverter)
    (hne : dims ≠ []) (hlen : dims.length ≤ MAX_DIM)
    (hr : ∀ d ∈ dims, -(2 ^ 31) ≤ d ∧ d < 2 ^ 31)
    (h : input g b dims = .ok (ti, g2)) :
    Mdl.Var (inputName b dims) ∈ g2.rec_expr ∧
    dim_from_name_string (inputName b dims) = .ok (ti.shape, ti.n_dim) := by
  rw [input, shape_from_dim_pad dims hlen] at h
  simp only [Except.ok.injEq, Prod.mk.injEq] at h
  obtain ⟨h1, h2⟩ := h
  subst h1
  subst h2
  constructor
  · simp only [recordInfo, addNode]
    refine List.mem_append_left _ (add_or_get_val_mono _ b _ ?_)
    simp [addNode]
  · have hdfn : dim_from_name_string (inputName b dims) =
        (do
          let ds ← mapME parse_i32E
            (splitOnChar '_' (joinWithChar '_' (dims.map renderInt)))
          shape_from_dim_cm ds : Except CostErr (List Int × Nat)) := by
      rw [dim_from_name_string, splitOnChar_inputName b dims]
    rw [hdfn,
      splitOnChar_join '_' (dims.map renderInt) (by simp [hne])
        (fun p hp => by
          obtain ⟨d, _, rfl⟩ := List.mem_map.mp hp
          exact us_not_mem_renderInt d),
      mapME_parse_renderInt dims hr, exceptOk_bind,
      shape_from_dim_cm_pad dims hlen]

/-- C6 counterexample to the claim as stated: for the empty dimension list
`input` succeeds (returning an all-zero shape with dimension count 0), but
parsing the name it produced panics on the empty suffix fragment, so nothing
is recovered and the round trip fails. -/
theorem input_name_round_trip_empty :
    (input newConverter 0 []).isOk = true ∧
    dim_from_name_string (inputName 0 []) = .error .parseFailed :=
  ⟨rfl, rfl⟩

/-- The `TensorInfo` returned by the witness `input` call. -/
def c6ti : TensorInfo := ⟨2, [3, 4, 0, 0, 0, 0, 0, 0], 2⟩

/-- The converter state after the witness `input` call. -/
def c6conv : CppGraphConverter :=
  ⟨[.Var (inputName 0 [3, 4]), .Num 0, .Input 0 1], [(0, 1)], [(2, c6ti)]⟩

/-- Witness for C6 at `input_0@3_4`. -/
theorem input_name_round_trip_witness :
    Mdl.Var (inputName 0 [3, 4]) ∈ c6conv.rec_expr ∧
    dim_from_name_string (inputName 0 [3, 4]) = .ok (c6ti.shape, c6ti.n_dim) :=
  input_name_round_trip newConverter 0 [3, 4] c6ti c6conv (by decide)
    (by decide) (by decide) rfl

end Tensat
